import Mathlib

/-!
Ethereum block parser: hex codec, subscription store and block scanner.

A shallow embedding of `shared/utils.go` and `internal/parser/parser.go`.

* Go strings are Lean strings, inspected character by character where the Go
  code inspects bytes (every character the code accepts is ASCII).
* `int64` values are integers; the one place where the program increments a
  machine integer (`i++` in `scanBlocks`) wraps explicitly modulo `2^64`.
* Go maps are total functions into `Option` (`none` = key absent).
* The mutex, the HTTP client and the RPC URL carry no data that the modelled
  operations read; the answers of the remote node are explicit arguments.
-/

namespace EthParser

/-! ## Go standard library: `fmt` and `strconv` as used by the program -/

/-- Index into the digit table "0123456789abcdef" used by the `%x` verb. -/
def hexDigit (d : Nat) : Char :=
  if d < 10 then Char.ofNat (48 + d) else Char.ofNat (87 + d)

/-- The base-16 digit loop of the integer formatter:
`for u >= 16 { buf[i] = digits[u&0xF]; u >>= 4 }; buf[i] = digits[u]`,
writing right to left.  The recursion is bounded by the first argument; a
64-bit value needs at most sixteen rounds. -/
def fmtHexLoop : Nat → Nat → List Char → List Char
  | 0, u, buf => hexDigit (u % 16) :: buf
  | fuel + 1, u, buf =>
    if u ≥ 16 then fmtHexLoop fuel (u / 16) (hexDigit (u % 16) :: buf)
    else hexDigit u :: buf

/-- The `%x` verb on a signed 64-bit integer: the sign is split off, the
magnitude (negated inside `uint64`) is written in lower-case hex. -/
def fmtInteger16 (n : Int) : List Char :=
  if n < 0 then '-' :: fmtHexLoop 16 ((-n).toNat % 2 ^ 64) []
  else fmtHexLoop 16 (n.toNat % 2 ^ 64) []

/-- The two failure kinds of `strconv`: `ErrSyntax` and `ErrRange`. -/
inductive NumError
  | invalidDigits
  | outOfRange
  deriving DecidableEq, Repr

/-- Go `lower(c) = c | ('x' - 'X')` on a byte. -/
def lower (c : Nat) : Nat := c ||| 32

/-- Digit value of one byte inside `ParseUint`, before comparison with the base. -/
def digitVal (c : Char) : Option Nat :=
  if 48 ≤ c.toNat ∧ c.toNat ≤ 57 then some (c.toNat - 48)
  else if 97 ≤ lower c.toNat ∧ lower c.toNat ≤ 122 then some (lower c.toNat - 97 + 10)
  else none

/-- The largest `uint64`. -/
def maxUint64 : Nat := 2 ^ 64 - 1

/-- The digit loop of `ParseUint` for base argument 0 and bit size 64.
State: the accumulated value and whether an underscore was seen.
Result: the value with the flag, or the error together with the value that
`ParseUint` returns beside it. -/
def parseUintLoop (base : Nat) : List Char → Nat → Bool → Except (Nat × NumError) (Nat × Bool)
  | [], n, underscores => .ok (n, underscores)
  | c :: cs, n, underscores =>
    if c = '_' then parseUintLoop base cs n true
    else
      match digitVal c with
      | none => .error (0, .invalidDigits)
      | some d =>
        if d ≥ base then .error (0, .invalidDigits)
        else if n ≥ maxUint64 / base + 1 then .error (maxUint64, .outOfRange)
        else
          let n0 := (n * base) % 2 ^ 64
          let n1 := (n0 + d) % 2 ^ 64
          if n1 < n0 ∨ n1 > maxUint64 then .error (maxUint64, .outOfRange)
          else parseUintLoop base cs n1 underscores

/-- Is the byte a digit for `underscoreOK`? -/
def isSepDigit (hex : Bool) (c : Char) : Bool :=
  (48 ≤ c.toNat ∧ c.toNat ≤ 57) ∨ (hex = true ∧ 97 ≤ lower c.toNat ∧ lower c.toNat ≤ 102)

/-- The scan of `underscoreOK`; `saw` is the last class seen
(`'^'`, `'0'`, `'_'` or `'!'`). -/
def underscoreScan (hex : Bool) : List Char → Char → Bool
  | [], saw => saw != '_'
  | c :: cs, saw =>
    if isSepDigit hex c then underscoreScan hex cs '0'
    else if c = '_' then
      if saw != '0' then false else underscoreScan hex cs '_'
    else if saw = '_' then false
    else underscoreScan hex cs '!'

/-- Go `underscoreOK`: underscores only between digits or after the base marker. -/
def underscoreOK (s : List Char) : Bool :=
  let s := match s with
    | '-' :: t => t
    | '+' :: t => t
    | _ => s
  match s with
  | '0' :: c :: t =>
    if lower c.toNat = 98 ∨ lower c.toNat = 111 ∨ lower c.toNat = 120 then
      underscoreScan (lower c.toNat = 120) t '0'
    else underscoreScan false s '^'
  | _ => underscoreScan false s '^'

/-- Base detection of `ParseUint` with base argument 0: the base and the
remaining digits. -/
def detectBase (s : List Char) : Nat × List Char :=
  match s with
  | '0' :: rest =>
    match rest with
    | c :: d :: t =>
      if lower c.toNat = 98 then (2, d :: t)
      else if lower c.toNat = 111 then (8, d :: t)
      else if lower c.toNat = 120 then (16, d :: t)
      else (8, rest)
    | _ => (8, rest)
  | _ => (10, s)

/-- Go `strconv.ParseUint(s, 0, 64)` as a `(value, error)` pair. -/
def ParseUint (s : List Char) : Nat × Option NumError :=
  match s with
  | [] => (0, some .invalidDigits)
  | _ =>
    let (base, digits) := detectBase s
    match parseUintLoop base digits 0 false with
    | .error (v, e) => (v, some e)
    | .ok (n, underscores) =>
      if underscores ∧ ¬ underscoreOK s then (0, some .invalidDigits)
      else (n, none)

/-- Go `strconv.ParseInt(s, 0, 64)` as a `(value, error)` pair. -/
def ParseInt (str : String) : Int × Option NumError :=
  match str.data with
  | [] => (0, some .invalidDigits)
  | c :: t =>
    let neg : Bool := c = '-'
    let s := if c = '+' ∨ c = '-' then t else c :: t
    match ParseUint s with
    | (_, some .invalidDigits) => (0, some .invalidDigits)
    | (un, _) =>
      let cutoff : Nat := 2 ^ 63
      if neg = false ∧ un ≥ cutoff then ((cutoff : Int) - 1, some .outOfRange)
      else if neg = true ∧ un > cutoff then (-(cutoff : Int), some .outOfRange)
      else if neg then (-(un : Int), none) else ((un : Int), none)

/-! ## `shared/utils.go` -/

/-- CurrentBlockToHex: `fmt.Sprintf("0x%x", currentBlock)`. -/
def CurrentBlockToHex (currentBlock : Int) : String :=
  "0x" ++ String.mk (fmtInteger16 currentBlock)

/-! ## Data model -/

/-- Modelled from the spec: the declaration of `shared.Transaction` is not among
the sources; the spec lists the fields `hash`, `from`, `to`, `blockNumber`,
`transactionIndex` and `value`.  The parser concatenates `BlockNumber`, "_" and
`TransactionIndex`, so both are strings, and uses `From` and `To` as map keys. -/
structure Transaction where
  Hash : String
  From : String
  To : String
  BlockNumber : String
  TransactionIndex : String
  Value : String
  deriving DecidableEq, Repr

/-- A Go `map[string]V`: `none` means the key is absent. -/
abbrev GoMap (V : Type) : Type := String → Option V

/-- The assignment `m[k] = v`. -/
def GoMap.set {V : Type} (m : GoMap V) (k : String) (v : V) : GoMap V :=
  fun k1 => if k1 = k then some v else m k1

/-- The two-value lookup `_, ok := m[k]`. -/
def GoMap.has {V : Type} (m : GoMap V) (k : String) : Bool := (m k).isSome

/-- The data fields of `Parser` that the operations read and write. -/
structure Parser where
  currentBlock : Int
  subscribed : GoMap (List Transaction)
  processedTransactions : GoMap (GoMap Unit)

/-- NewParser: cursor zero, both maps empty. -/
def NewParser : Parser :=
  { currentBlock := 0, subscribed := fun _ => none, processedTransactions := fun _ => none }

/-! ## Remote node -/

/-- What happened to the `eth_blockNumber` request. -/
inductive HeadReply
  | requestFailed
  | transportFailed
  | decodeFailed
  | result (r : String)
  deriving DecidableEq, Repr

/-- What happened to an `eth_getBlockByNumber` request. -/
inductive BlockReply
  | requestFailed
  | transportFailed
  | decodeFailed
  | unmarshalFailed
  | block (transactions : List Transaction)
  deriving DecidableEq, Repr

/-- The errors the two fetch functions return. -/
inductive FetchError
  | request
  | transport
  | decode
  | number (e : NumError)
  deriving DecidableEq, Repr

/-- fetchCurrentBlock: every failure returns `(0, err)`, success returns the
parsed `Result` field. -/
def fetchCurrentBlock (reply : HeadReply) : Int × Option FetchError :=
  match reply with
  | .requestFailed => (0, some .request)
  | .transportFailed => (0, some .transport)
  | .decodeFailed => (0, some .decode)
  | .result r =>
    match ParseInt r with
    | (_, some e) => (0, some (.number e))
    | (blockNumber, none) => (blockNumber, none)

/-- getBlockTransactions: the transactions of the block, or the error. -/
def getBlockTransactions (node : Int → BlockReply) (blockNumber : Int) :
    Except FetchError (List Transaction) :=
  match node blockNumber with
  | .requestFailed => .error .request
  | .transportFailed => .error .transport
  | .decodeFailed => .error .decode
  | .unmarshalFailed => .error .decode
  | .block transactions => .ok transactions

/-! ## `internal/parser/parser.go` -/

/-- GetCurrentBlock: fetch the head, log a failure, store the fetched number
in the cursor and return its hex form. -/
def GetCurrentBlock (p : Parser) (reply : HeadReply) : Parser × String :=
  let (blockNum, _err) := fetchCurrentBlock reply
  let p1 := { p with currentBlock := blockNum }
  (p1, CurrentBlockToHex p1.currentBlock)

/-- Subscribe: a new address gets an empty log and `true`; a known one `false`. -/
def Subscribe (p : Parser) (address : String) : Parser × Bool :=
  if ¬ p.subscribed.has address then
    ({ p with subscribed := p.subscribed.set address [] }, true)
  else (p, false)

/-- GetTransactions: `p.subscribed[address]`, the nil slice when absent. -/
def GetTransactions (p : Parser) (address : String) : List Transaction :=
  (p.subscribed address).getD []

/-- processTransaction: the outer test binds `exists`, the inner test binds
`processed` and requires `!exists && !processed`. -/
def processTransaction (p : Parser) (tx : Transaction) (address txKey : String) : Parser :=
  let exists_ := p.subscribed.has address
  if exists_ then
    let processed :=
      match p.processedTransactions address with
      | none => false
      | some seen => seen.has txKey
    if !exists_ && !processed then
      let p1 := { p with
        subscribed := p.subscribed.set address ((p.subscribed address).getD [] ++ [tx]) }
      let p2 :=
        if (p1.processedTransactions address).isNone then
          { p1 with processedTransactions := p1.processedTransactions.set address (fun _ => none) }
        else p1
      { p2 with
        processedTransactions :=
          p2.processedTransactions.set address
            (((p2.processedTransactions address).getD (fun _ => none)).set txKey ()) }
    else p
  else p

/-- The body of the loop in `processBlockTransactions` for one transaction. -/
def processOne (p : Parser) (tx : Transaction) : Parser :=
  let txKey := tx.BlockNumber ++ "_" ++ tx.TransactionIndex
  processTransaction (processTransaction p tx tx.From txKey) tx tx.To txKey

/-- processBlockTransactions: every transaction in order, sender then receiver. -/
def processBlockTransactions (p : Parser) (transactions : List Transaction) : Parser :=
  transactions.foldl processOne p

/-- One call of the public interface or of the recording step. -/
inductive Call
  | subscribe (address : String)
  | getCurrentBlock (reply : HeadReply)
  | processBlock (transactions : List Transaction)
  deriving Repr

/-- The state after one call. -/
def applyCall (p : Parser) : Call → Parser
  | .subscribe address => (Subscribe p address).1
  | .getCurrentBlock reply => (GetCurrentBlock p reply).1
  | .processBlock transactions => processBlockTransactions p transactions

/-- The state after a sequence of calls. -/
def runCalls (p : Parser) (calls : List Call) : Parser :=
  calls.foldl applyCall p

/-! ## The scan loop -/

/-- What the scan loop does, in order. -/
inductive Event
  | fetchHead
  | fetchBlock (i : Int)
  | processBlock (i : Int)
  | sleep
  deriving DecidableEq, Repr

/-- The `int64` value of an integer after wrap-around. -/
def wrapInt64 (x : Int) : Int := (x + 2 ^ 63) % 2 ^ 64 - 2 ^ 63

/-- The loop `for i := startBlock; i <= lastBlockNumber; i++` of `scanBlocks`.
The first argument bounds the number of rounds; `none` means the bound was
reached with the loop still running. -/
def scanRange (node : Int → BlockReply) :
    Nat → Int → Int → Parser → List Event → Option (Parser × List Event)
  | 0, i, lastBlockNumber, p, trace =>
    if i ≤ lastBlockNumber then none else some (p, trace)
  | fuel + 1, i, lastBlockNumber, p, trace =>
    if i ≤ lastBlockNumber then
      match getBlockTransactions node i with
      | .error _ =>
        scanRange node fuel (wrapInt64 (i + 1)) lastBlockNumber p (trace ++ [.fetchBlock i])
      | .ok blockTransactions =>
        scanRange node fuel (wrapInt64 (i + 1)) lastBlockNumber
          (processBlockTransactions p blockTransactions)
          (trace ++ [.fetchBlock i, .processBlock i])
    else some (p, trace)

/-- One round of the outer `for` of `scanBlocks`: read the cursor, fetch the
head, `continue` on failure or on a zero cursor, otherwise scan the range and
sleep. -/
def scanCycle (node : Int → BlockReply) (fuel : Nat) (p : Parser) (reply : HeadReply) :
    Option (Parser × List Event) :=
  let startBlock := p.currentBlock
  match fetchCurrentBlock reply with
  | (_, some _) => some (p, [.fetchHead])
  | (lastBlockNumber, none) =>
    if startBlock = 0 then some (p, [.fetchHead])
    else
      match scanRange node fuel startBlock lastBlockNumber p [.fetchHead] with
      | none => none
      | some (p1, trace) => some (p1, trace ++ [.sleep])

/-- The first rounds of `scanBlocks`, one per head reply, with no other call
in between. -/
def scanBlocks (node : Int → BlockReply) (fuel : Nat) :
    List HeadReply → Parser → Option (Parser × List Event)
  | [], p => some (p, [])
  | reply :: replies, p =>
    match scanCycle node fuel p reply with
    | none => none
    | some (p1, trace) =>
      match scanBlocks node fuel replies p1 with
      | none => none
      | some (p2, rest) => some (p2, trace ++ rest)

/-- No log has an entry and no dedup set exists. -/
def NothingRecorded (p : Parser) : Prop :=
  (∀ a log, p.subscribed a = some log → log = []) ∧ ∀ a, p.processedTransactions a = none

/-! ## The scan cycle as the specification words it -/

/-- The block numbers `i, i+1, ...`, `n` of them, in increasing order. -/
def blockRangeFrom (i : Int) : Nat → List Int
  | 0 => []
  | n + 1 => i :: blockRangeFrom (i + 1) n

/-- The block numbers from `startBlock` through `lastBlockNumber` inclusive. -/
def blockRange (startBlock lastBlockNumber : Int) : List Int :=
  blockRangeFrom startBlock (lastBlockNumber - startBlock + 1).toNat

/-- The transaction lists of those blocks whose fetch succeeded, in the order
of the blocks. -/
def fetchedLists (node : Int → BlockReply) (blocks : List Int) : List (List Transaction) :=
  blocks.filterMap (fun i =>
    match getBlockTransactions node i with
    | .ok blockTransactions => some blockTransactions
    | .error _ => none)

/-- The state the specification gives after a cycle: `processBlockTransactions`
applied, block after block, to the lists that were fetched. -/
def specCycleState (node : Int → BlockReply) (p : Parser) (blocks : List Int) : Parser :=
  (fetchedLists node blocks).foldl processBlockTransactions p

/-- The events the specification gives for the blocks of a cycle: each block
is fetched, and processed when the fetch succeeded. -/
def specBlockEvents (node : Int → BlockReply) : List Int → List Event
  | [] => []
  | i :: rest =>
    match getBlockTransactions node i with
    | .ok _ => .fetchBlock i :: .processBlock i :: specBlockEvents node rest
    | .error _ => .fetchBlock i :: specBlockEvents node rest

/-- Does a sleep separate every two head fetches of the trace?  The flag says
that a head fetch has been seen with no sleep after it. -/
def sleepsBetweenHeadFetches : List Event → Bool → Bool
  | [], _ => true
  | .fetchHead :: rest, pending =>
    if pending then false else sleepsBetweenHeadFetches rest true
  | .sleep :: rest, _ => sleepsBetweenHeadFetches rest false
  | .fetchBlock _ :: rest, pending => sleepsBetweenHeadFetches rest pending
  | .processBlock _ :: rest, pending => sleepsBetweenHeadFetches rest pending

/-! ## Concrete inputs -/

/-- A transfer from "A" to "B": block `0x1`, position `0x0`. -/
def txAB : Transaction :=
  { Hash := "0xabc", From := "A", To := "B", BlockNumber := "0x1",
    TransactionIndex := "0x0", Value := "0x5" }

/-- A self-transfer of "A": block `0x1`, position `0x1`. -/
def txAA : Transaction :=
  { Hash := "0xdef", From := "A", To := "A", BlockNumber := "0x1",
    TransactionIndex := "0x1", Value := "0x7" }

/-- A fresh parser after `Subscribe("A")`. -/
def parserA : Parser := (Subscribe NewParser "A").1

/-- A fresh parser after `Subscribe("A")` and `Subscribe("B")`. -/
def parserAB : Parser := (Subscribe parserA "B").1

/-- A parser whose cursor is at block 5. -/
def parserAt5 : Parser := { NewParser with currentBlock := 5 }

/-- A parser whose cursor is at the largest `int64`. -/
def parserAtMax : Parser := { NewParser with currentBlock := 2 ^ 63 - 1 }

/-- A node on which block 6 cannot be fetched and every other block holds the
transfer from "A" to "B". -/
def nodeFailingAt6 : Int → BlockReply :=
  fun i => if i = 6 then .transportFailed else .block [txAB]

/-! ## Lemmas on the recording step -/

theorem processTransaction_eq_self (p : Parser) (tx : Transaction) (address txKey : String) :
    processTransaction p tx address txKey = p := by
  unfold processTransaction
  cases h : p.subscribed.has address <;> simp

theorem processOne_eq_self (p : Parser) (tx : Transaction) : processOne p tx = p := by
  simp [processOne, processTransaction_eq_self]

theorem processBlockTransactions_eq_self (p : Parser) (transactions : List Transaction) :
    processBlockTransactions p transactions = p := by
  unfold processBlockTransactions
  induction transactions generalizing p with
  | nil => rfl
  | cons tx rest ih => simp [List.foldl_cons, processOne_eq_self, ih]

theorem nothingRecorded_new : NothingRecorded NewParser := by
  constructor
  · intro a log h
    simp [NewParser] at h
  · intro a
    rfl

theorem nothingRecorded_subscribe (p : Parser) (address : String) (h : NothingRecorded p) :
    NothingRecorded (Subscribe p address).1 := by
  unfold Subscribe
  by_cases hs : p.subscribed.has address = true
  · simpa [hs] using h
  · simp only [hs, not_false_eq_true, if_true]
    refine ⟨?_, h.2⟩
    intro a log hl
    by_cases ha : a = address
    · simp [GoMap.set, ha] at hl
      exact hl
    · simp [GoMap.set, ha] at hl
      exact h.1 a log hl

theorem nothingRecorded_applyCall (p : Parser) (c : Call) (h : NothingRecorded p) :
    NothingRecorded (applyCall p c) := by
  cases c with
  | subscribe address => exact nothingRecorded_subscribe p address h
  | getCurrentBlock reply => exact h
  | processBlock transactions =>
    simpa [applyCall, processBlockTransactions_eq_self] using h

theorem nothingRecorded_runCalls (calls : List Call) (p : Parser) (h : NothingRecorded p) :
    NothingRecorded (runCalls p calls) := by
  unfold runCalls
  induction calls generalizing p with
  | nil => exact h
  | cons c rest ih =>
    simp only [List.foldl_cons]
    exact ih _ (nothingRecorded_applyCall p c h)

/-! ## Claims on the subscription store and the recording step -/

/-- C1: with "A" and "B" both subscribed on a fresh parser and the key of the
transfer from "A" to "B" recorded for neither, `processBlockTransactions` on
that single transfer leaves both logs empty; neither log becomes the
one-element log the claim requires. -/
theorem C1_transfer_between_subscribers_not_recorded :
    parserAB.subscribed "A" = some [] ∧ parserAB.subscribed "B" = some [] ∧
    parserAB.processedTransactions "A" = none ∧ parserAB.processedTransactions "B" = none ∧
    (processBlockTransactions parserAB [txAB]).subscribed "A" = some [] ∧
    (processBlockTransactions parserAB [txAB]).subscribed "B" = some [] ∧
    (processBlockTransactions parserAB [txAB]).subscribed "A" ≠ some ([] ++ [txAB]) ∧
    (processBlockTransactions parserAB [txAB]).subscribed "B" ≠ some ([] ++ [txAB]) := by
  rw [processBlockTransactions_eq_self]
  exact ⟨by decide, by decide, rfl, rfl, by decide, by decide, by decide, by decide⟩

/-- C2: on a fresh parser with "A" subscribed, `processBlockTransactions` on a
single self-transfer of "A" leaves the log of "A" with zero entries, not one. -/
theorem C2_self_transfer_not_recorded :
    (processBlockTransactions parserA [txAA]).subscribed "A" = some [] ∧
    (GetTransactions (processBlockTransactions parserA [txAA]) "A").length = 0 ∧
    GetTransactions (processBlockTransactions parserA [txAA]) "A" ≠ [txAA] := by
  rw [processBlockTransactions_eq_self]
  decide

/-- C3: when the head fetch fails, `GetCurrentBlock` returns "0x0" and sets the
cursor to zero, whatever the cursor was; from cursor 5 the stale value "0x5" is
not returned and the cursor does not stay 5. -/
theorem C3_failed_head_fetch_resets_cursor :
    (∀ p : Parser, (GetCurrentBlock p .transportFailed).2 = "0x0" ∧
      (GetCurrentBlock p .transportFailed).1.currentBlock = 0) ∧
    (∀ (p : Parser) (reply : HeadReply), (fetchCurrentBlock reply).2 ≠ none →
      (GetCurrentBlock p reply).2 = "0x0" ∧ (GetCurrentBlock p reply).1.currentBlock = 0) ∧
    (fetchCurrentBlock .transportFailed).2 ≠ none ∧
    CurrentBlockToHex parserAt5.currentBlock = "0x5" ∧
    (GetCurrentBlock parserAt5 .transportFailed).2 ≠ CurrentBlockToHex parserAt5.currentBlock ∧
    (GetCurrentBlock parserAt5 .transportFailed).1.currentBlock ≠ parserAt5.currentBlock := by
  refine ⟨fun p => ⟨rfl, rfl⟩, ?_, by decide, by decide, by decide, by decide⟩
  intro p reply herr
  have h0 : (fetchCurrentBlock reply).1 = 0 := by
    cases reply with
    | requestFailed => rfl
    | transportFailed => rfl
    | decodeFailed => rfl
    | result r =>
      unfold fetchCurrentBlock at herr ⊢
      cases hp : ParseInt r with
      | mk v e =>
        cases e with
        | none => simp [hp] at herr
        | some e => simp [hp]
  have hs : GetCurrentBlock p reply =
      ({ p with currentBlock := (fetchCurrentBlock reply).1 },
        CurrentBlockToHex (fetchCurrentBlock reply).1) := rfl
  rw [hs, h0]
  exact ⟨rfl, rfl⟩

/-- C4: `Subscribe` on an address that is not subscribed returns true, gives it
an empty log, leaves every other log, the dedup sets and the cursor as they
were, and a second `Subscribe` on the result returns false and changes nothing;
`Subscribe` on any subscribed address returns false and changes nothing. -/
theorem C4_subscribe_once (p : Parser) (a : String) :
    (p.subscribed a = none →
      (Subscribe p a).2 = true ∧
      (Subscribe p a).1.subscribed a = some [] ∧
      (∀ b, b ≠ a → (Subscribe p a).1.subscribed b = p.subscribed b) ∧
      (Subscribe p a).1.processedTransactions = p.processedTransactions ∧
      (Subscribe p a).1.currentBlock = p.currentBlock ∧
      Subscribe (Subscribe p a).1 a = ((Subscribe p a).1, false)) ∧
    (∀ log, p.subscribed a = some log → Subscribe p a = (p, false)) := by
  constructor
  · intro h
    have h1 : (Subscribe p a) = ({ p with subscribed := p.subscribed.set a [] }, true) := by
      simp [Subscribe, GoMap.has, h]
    rw [h1]
    refine ⟨rfl, by simp [GoMap.set], ?_, rfl, rfl, ?_⟩
    · intro b hb
      simp [GoMap.set, hb]
    · simp [Subscribe, GoMap.has, GoMap.set]
  · intro log h
    simp [Subscribe, GoMap.has, h]

/-- Witness of C4 on a fresh parser and the address "A". -/
theorem C4_subscribe_once_witness :
    (Subscribe NewParser "A").2 = true ∧
    (Subscribe NewParser "A").1.subscribed "A" = some [] ∧
    Subscribe (Subscribe NewParser "A").1 "A" = ((Subscribe NewParser "A").1, false) ∧
    Subscribe parserA "A" = (parserA, false) :=
  ⟨((C4_subscribe_once NewParser "A").1 rfl).1,
   ((C4_subscribe_once NewParser "A").1 rfl).2.1,
   ((C4_subscribe_once NewParser "A").1 rfl).2.2.2.2.2,
   (C4_subscribe_once parserA "A").2 [] (by decide)⟩

/-- C6: in every state reached from a fresh parser by `Subscribe`,
`GetCurrentBlock` and `processBlockTransactions` calls, no log holds two
entries with the same block number and transaction index. -/
theorem C6_no_duplicate_keys (calls : List Call) (a : String) (log : List Transaction)
    (h : (runCalls NewParser calls).subscribed a = some log) :
    log.Pairwise (fun t1 t2 =>
      ¬ (t1.BlockNumber = t2.BlockNumber ∧ t1.TransactionIndex = t2.TransactionIndex)) := by
  have hl := (nothingRecorded_runCalls calls NewParser nothingRecorded_new).1 a log h
  subst hl
  exact List.Pairwise.nil

/-- Witness of C6: "A" subscribed, the same block processed twice, a
self-transfer included. -/
theorem C6_no_duplicate_keys_witness :
    (runCalls NewParser
      [.subscribe "A", .processBlock [txAA, txAB], .processBlock [txAA, txAB]]).subscribed "A"
        = some [] ∧
    ([] : List Transaction).Pairwise (fun t1 t2 =>
      ¬ (t1.BlockNumber = t2.BlockNumber ∧ t1.TransactionIndex = t2.TransactionIndex)) :=
  have h : (runCalls NewParser
      [.subscribe "A", .processBlock [txAA, txAB], .processBlock [txAA, txAB]]).subscribed "A"
        = some [] := by
    simp [runCalls, applyCall, processBlockTransactions_eq_self]
    decide
  ⟨h, C6_no_duplicate_keys _ "A" [] h⟩

/-- C7: processing a transaction list a second time changes no log: every
address has the same log, of the same length, as after the first pass. -/
theorem C7_reprocessing_changes_no_log (p : Parser) (txs : List Transaction) (a : String) :
    (processBlockTransactions (processBlockTransactions p txs) txs).subscribed a =
      (processBlockTransactions p txs).subscribed a ∧
    (GetTransactions (processBlockTransactions (processBlockTransactions p txs) txs) a).length =
      (GetTransactions (processBlockTransactions p txs) a).length := by
  rw [processBlockTransactions_eq_self (processBlockTransactions p txs) txs]
  exact ⟨rfl, rfl⟩

/-- C10: `processTransaction` leaves the subscription map and the
processed-transactions map as they were, and in every state reached from a
fresh parser by `Subscribe`, `GetCurrentBlock` and `processBlockTransactions`
calls every log is empty, the processed-transactions map has no entry and
`GetTransactions` returns the empty sequence for every address. -/
theorem C10_nothing_is_ever_recorded :
    (∀ (p : Parser) (tx : Transaction) (address txKey : String),
      (processTransaction p tx address txKey).subscribed = p.subscribed ∧
      (processTransaction p tx address txKey).processedTransactions = p.processedTransactions) ∧
    (∀ (calls : List Call),
      (∀ a log, (runCalls NewParser calls).subscribed a = some log → log = []) ∧
      (∀ a, (runCalls NewParser calls).processedTransactions a = none) ∧
      (∀ a, GetTransactions (runCalls NewParser calls) a = [])) := by
  constructor
  · intro p tx address txKey
    rw [processTransaction_eq_self]
    exact ⟨rfl, rfl⟩
  · intro calls
    have h := nothingRecorded_runCalls calls NewParser nothingRecorded_new
    refine ⟨h.1, h.2, ?_⟩
    intro a
    unfold GetTransactions
    cases hl : (runCalls NewParser calls).subscribed a with
    | none => rfl
    | some log => simp [h.1 a log hl]

/-- Witness of C10: after subscribing "A" and "B" and processing a block with a
transfer between them and a self-transfer, both logs are empty. -/
theorem C10_nothing_is_ever_recorded_witness :
    GetTransactions (runCalls NewParser
      [.subscribe "A", .subscribe "B", .processBlock [txAB, txAA]]) "A" = [] ∧
    GetTransactions (runCalls NewParser
      [.subscribe "A", .subscribe "B", .processBlock [txAB, txAA]]) "B" = [] ∧
    (runCalls NewParser
      [.subscribe "A", .subscribe "B", .processBlock [txAB, txAA]]).processedTransactions "A"
        = none :=
  ⟨(C10_nothing_is_ever_recorded.2 _).2.2 "A", (C10_nothing_is_ever_recorded.2 _).2.2 "B",
    (C10_nothing_is_ever_recorded.2 _).2.1 "A"⟩

/-! ## Hex codec -/

theorem hexDigit_ne_underscore (d : Nat) (h : d < 16) : hexDigit d ≠ '_' := by
  interval_cases d <;> decide

theorem digitVal_hexDigit (d : Nat) (h : d < 16) : digitVal (hexDigit d) = some d := by
  interval_cases d <;> decide

/-- One round of the digit loop on a hex digit that fits. -/
theorem parseUintLoop_hexDigit (d n : Nat) (buf : List Char) (us : Bool)
    (hd : d < 16) (hn : n < 2 ^ 60) :
    parseUintLoop 16 (hexDigit d :: buf) n us = parseUintLoop 16 buf (n * 16 + d) us := by
  have h0 : (n * 16) % 2 ^ 64 = n * 16 := Nat.mod_eq_of_lt (by omega)
  have h1 : (n * 16 + d) % 2 ^ 64 = n * 16 + d := Nat.mod_eq_of_lt (by omega)
  have hc : ¬ n ≥ maxUint64 / 16 + 1 := by
    simp only [maxUint64]
    omega
  have hr : ¬ ((n * 16 + d) < n * 16 ∨ (n * 16 + d) > maxUint64) := by
    simp only [maxUint64]
    omega
  rw [parseUintLoop]
  simp only [hexDigit_ne_underscore d hd, if_false, digitVal_hexDigit d hd]
  simp only [h0, h1, hc, hr, if_false, ge_iff_le, Nat.not_le.mpr hd]

/-- Reading back what the formatter wrote. -/
theorem parseUintLoop_fmtHexLoop (fuel : Nat) :
    ∀ (u : Nat) (buf : List Char), u < 16 ^ (fuel + 1) → u < 2 ^ 64 →
      parseUintLoop 16 (fmtHexLoop fuel u buf) 0 false = parseUintLoop 16 buf u false := by
  induction fuel with
  | zero =>
    intro u buf hu _
    have hu16 : u < 16 := by simpa using hu
    rw [fmtHexLoop, Nat.mod_eq_of_lt hu16, parseUintLoop_hexDigit u 0 buf false hu16 (by norm_num)]
    simp
  | succ fuel ih =>
    intro u buf hu h64
    rw [fmtHexLoop]
    by_cases h16 : u ≥ 16
    · simp only [h16, if_true]
      have hq : u / 16 < 16 ^ (fuel + 1) := by
        rw [Nat.div_lt_iff_lt_mul (by norm_num)]
        calc u < 16 ^ (fuel + 1 + 1) := hu
          _ = 16 ^ (fuel + 1) * 16 := by rw [pow_succ]
      rw [ih (u / 16) _ hq (by omega),
        parseUintLoop_hexDigit (u % 16) (u / 16) buf false (Nat.mod_lt _ (by norm_num)) (by omega)]
      congr 1
      omega
    · simp only [h16, if_false]
      rw [parseUintLoop_hexDigit u 0 buf false (by omega) (by norm_num)]
      simp

theorem fmtHexLoop_ne_nil (fuel u : Nat) (buf : List Char) : fmtHexLoop fuel u buf ≠ [] := by
  induction fuel generalizing u buf with
  | zero => simp [fmtHexLoop]
  | succ fuel ih =>
    rw [fmtHexLoop]
    split
    · exact ih _ _
    · simp

/-- `ParseUint` on the marker "0x" followed by the formatted digits. -/
theorem ParseUint_hex (u : Nat) (hu : u < 2 ^ 64) :
    ParseUint ('0' :: 'x' :: fmtHexLoop 16 u []) = (u, none) := by
  have hp := parseUintLoop_fmtHexLoop 16 u [] (by omega) hu
  cases hd : fmtHexLoop 16 u [] with
  | nil => exact absurd hd (fmtHexLoop_ne_nil 16 u [])
  | cons d t =>
    rw [hd] at hp
    have hb : detectBase ('0' :: 'x' :: d :: t) = (16, d :: t) := by
      simp [detectBase, lower]
    have hp2 : parseUintLoop 16 (d :: t) 0 false = .ok (u, false) := by
      rw [hp, parseUintLoop]
    unfold ParseUint
    simp only [hb, hp2]
    simp

theorem CurrentBlockToHex_data (n : Int) (h0 : 0 ≤ n) (h1 : n < 2 ^ 63) :
    (CurrentBlockToHex n).data = '0' :: 'x' :: fmtHexLoop 16 n.toNat [] := by
  have hm : n.toNat % 18446744073709551616 = n.toNat := Nat.mod_eq_of_lt (by omega)
  simp [CurrentBlockToHex, fmtInteger16, Int.not_lt.mpr h0, hm]

/-- C5: for every `n` with `0 ≤ n < 2^63`, `ParseInt` with base 0 and bit size
64 on `CurrentBlockToHex n` succeeds with `n`, and so does the head fetch on a
reply carrying that string. -/
theorem C5_hex_round_trip (n : Int) (h0 : 0 ≤ n) (h1 : n < 2 ^ 63) :
    ParseInt (CurrentBlockToHex n) = (n, none) ∧
    fetchCurrentBlock (.result (CurrentBlockToHex n)) = (n, none) := by
  have hp : ParseInt (CurrentBlockToHex n) = (n, none) := by
    simp only [ParseInt, CurrentBlockToHex_data n h0 h1]
    simp [ParseUint_hex n.toNat (by omega), Int.toNat_of_nonneg h0]
    omega
  exact ⟨hp, by simp [fetchCurrentBlock, hp]⟩

/-- Witness of C5 at 1048576, with the values 0, 1 and 255 evaluated beside it. -/
theorem C5_hex_round_trip_witness :
    ParseInt (CurrentBlockToHex 1048576) = (1048576, none) ∧
    CurrentBlockToHex 1048576 = "0x100000" ∧
    ParseInt (CurrentBlockToHex 0) = (0, none) ∧
    ParseInt (CurrentBlockToHex 1) = (1, none) ∧
    ParseInt (CurrentBlockToHex 255) = (255, none) :=
  ⟨(C5_hex_round_trip 1048576 (by decide) (by decide)).1, by decide, by decide, by decide,
    by decide⟩

/-! ## The scan loop -/

theorem wrapInt64_eq_self (x : Int) (hlo : -2 ^ 63 ≤ x) (hhi : x < 2 ^ 63) : wrapInt64 x = x := by
  unfold wrapInt64
  omega

theorem wrapInt64_le_max (x : Int) : wrapInt64 x ≤ 2 ^ 63 - 1 := by
  unfold wrapInt64
  omega

theorem blockRange_of_lt (i last : Int) (h : ¬ i ≤ last) : blockRange i last = [] := by
  have h0 : (last - i + 1).toNat = 0 := by omega
  simp [blockRange, h0, blockRangeFrom]

theorem blockRange_of_le (i last : Int) (h : i ≤ last) :
    blockRange i last = i :: blockRange (i + 1) last := by
  have h0 : (last - i + 1).toNat = (last - (i + 1) + 1).toNat + 1 := by omega
  simp [blockRange, h0, blockRangeFrom]

theorem mem_blockRangeFrom (n : Nat) : ∀ (i j : Int), j ∈ blockRangeFrom i n ↔ i ≤ j ∧ j < i + n := by
  induction n with
  | zero =>
    intro i j
    simp only [blockRangeFrom, List.not_mem_nil, false_iff]
    omega
  | succ n ih =>
    intro i j
    simp only [blockRangeFrom, List.mem_cons, ih]
    omega

theorem mem_blockRange (i last j : Int) : j ∈ blockRange i last ↔ i ≤ j ∧ j ≤ last := by
  unfold blockRange
  rw [mem_blockRangeFrom]
  omega

theorem blockRangeFrom_increasing (n : Nat) : ∀ i : Int, (blockRangeFrom i n).Pairwise (· < ·) := by
  induction n with
  | zero => intro i; exact List.Pairwise.nil
  | succ n ih =>
    intro i
    simp only [blockRangeFrom, List.pairwise_cons]
    refine ⟨?_, ih (i + 1)⟩
    intro j hj
    rw [mem_blockRangeFrom] at hj
    omega

theorem processBlock_mem_specBlockEvents (node : Int → BlockReply) (blocks : List Int) (j : Int) :
    Event.processBlock j ∈ specBlockEvents node blocks ↔
      j ∈ blocks ∧ ∃ txs, getBlockTransactions node j = .ok txs := by
  induction blocks with
  | nil => simp [specBlockEvents]
  | cons i rest ih =>
    rw [specBlockEvents]
    cases hg : getBlockTransactions node i with
    | error e =>
      simp only [List.mem_cons, ih, reduceCtorEq, false_or]
      constructor
      · rintro ⟨h1, h2⟩
        exact ⟨Or.inr h1, h2⟩
      · rintro ⟨h1 | h1, txs, h2⟩
        · rw [h1, hg] at h2
          cases h2
        · exact ⟨h1, txs, h2⟩
    | ok txs0 =>
      simp only [List.mem_cons, ih, reduceCtorEq, false_or, Event.processBlock.injEq]
      constructor
      · rintro (h1 | ⟨h1, h2⟩)
        · exact ⟨Or.inl h1, txs0, h1 ▸ hg⟩
        · exact ⟨Or.inr h1, h2⟩
      · rintro ⟨h1 | h1, h2⟩
        · exact Or.inl h1
        · exact Or.inr ⟨h1, h2⟩

/-- The range loop, given enough rounds and a head below the largest `int64`,
ends with the state and the events of the specification. -/
theorem scanRange_eq_spec (node : Int → BlockReply) (last : Int) (hhi : last < 2 ^ 63 - 1)
    (fuel : Nat) :
    ∀ (i : Int) (p : Parser) (trace : List Event), -2 ^ 63 ≤ i → (last - i + 1).toNat ≤ fuel →
      scanRange node fuel i last p trace =
        some (specCycleState node p (blockRange i last),
              trace ++ specBlockEvents node (blockRange i last)) := by
  induction fuel with
  | zero =>
    intro i p trace _ hf
    have hlt : ¬ i ≤ last := by omega
    simp [scanRange, hlt, blockRange_of_lt i last hlt, specCycleState, fetchedLists,
      specBlockEvents]
  | succ fuel ih =>
    intro i p trace hlo hf
    by_cases hle : i ≤ last
    · have hw : wrapInt64 (i + 1) = i + 1 := wrapInt64_eq_self (i + 1) (by omega) (by omega)
      rw [scanRange, if_pos hle, hw, blockRange_of_le i last hle]
      cases hg : getBlockTransactions node i with
      | error e =>
        simp only []
        rw [ih (i + 1) p _ (by omega) (by omega)]
        simp [specCycleState, fetchedLists, specBlockEvents, hg]
      | ok txs =>
        simp only []
        rw [ih (i + 1) _ _ (by omega) (by omega)]
        simp [specCycleState, fetchedLists, specBlockEvents, hg]
    · simp [scanRange, hle, blockRange_of_lt i last hle, specCycleState, fetchedLists,
        specBlockEvents]

/-- With the head at the largest `int64` the range loop is never left. -/
theorem scanRange_max_never_ends (node : Int → BlockReply) (fuel : Nat) :
    ∀ (i : Int) (p : Parser) (trace : List Event), i ≤ 2 ^ 63 - 1 →
      scanRange node fuel i (2 ^ 63 - 1) p trace = none := by
  induction fuel with
  | zero =>
    intro i p trace hi
    rw [scanRange, if_pos hi]
  | succ fuel ih =>
    intro i p trace hi
    rw [scanRange, if_pos hi]
    cases getBlockTransactions node i with
    | error e => exact ih _ _ _ (wrapInt64_le_max _)
    | ok txs => exact ih _ _ _ (wrapInt64_le_max _)

/-- C8 (as stated, refuted): with the cursor and the fetched head both at the
largest `int64`, a non-zero start and a successful head fetch, no number of
rounds ends the cycle, so there is no state after the cycle. -/
theorem C8_cycle_at_max_head_never_ends :
    parserAtMax.currentBlock ≠ 0 ∧
    fetchCurrentBlock (.result "0x7fffffffffffffff") = (2 ^ 63 - 1, none) ∧
    ¬ ∃ fuel : Nat,
      (scanCycle nodeFailingAt6 fuel parserAtMax (.result "0x7fffffffffffffff")).isSome = true := by
  have hf : fetchCurrentBlock (.result "0x7fffffffffffffff") = (2 ^ 63 - 1, none) := by decide
  refine ⟨by decide, hf, ?_⟩
  rintro ⟨fuel, h⟩
  have hr := scanRange_max_never_ends nodeFailingAt6 fuel (2 ^ 63 - 1) parserAtMax
    [Event.fetchHead] (le_refl _)
  have hc : parserAtMax.currentBlock = 2 ^ 63 - 1 := rfl
  have hz : ¬ ((2 : Int) ^ 63 - 1 = 0) := by decide
  unfold scanCycle at h
  simp only [hf, hc, if_neg hz, hr] at h
  cases h

/-- C8 (amended): for a non-zero `int64` start cursor and a successfully
fetched head below the largest `int64`, a cycle given enough rounds ends; its
state is `processBlockTransactions` applied in increasing block order to the
lists of exactly the blocks of the range whose fetch succeeded; its events are
the head fetch, the blocks of the range in strictly increasing order and the
sleep; every block of the range whose fetch succeeds is processed, also after
a failed one, and a block whose fetch fails is not. -/
theorem C8_cycle_processes_fetched_blocks_in_order (node : Int → BlockReply) (p : Parser)
    (reply : HeadReply) (lastBlockNumber : Int) (fuel : Nat)
    (hstart : p.currentBlock ≠ 0) (hlo : -2 ^ 63 ≤ p.currentBlock)
    (hhead : fetchCurrentBlock reply = (lastBlockNumber, none))
    (hhi : lastBlockNumber < 2 ^ 63 - 1)
    (hfuel : (lastBlockNumber - p.currentBlock + 1).toNat ≤ fuel) :
    (∃ trace, scanCycle node fuel p reply =
        some (specCycleState node p (blockRange p.currentBlock lastBlockNumber), trace) ∧
      trace = [Event.fetchHead] ++
        specBlockEvents node (blockRange p.currentBlock lastBlockNumber) ++ [Event.sleep] ∧
      (∀ j txs, p.currentBlock ≤ j → j ≤ lastBlockNumber →
        getBlockTransactions node j = .ok txs → Event.processBlock j ∈ trace) ∧
      (∀ j e, getBlockTransactions node j = .error e → Event.processBlock j ∉ trace)) ∧
    (blockRange p.currentBlock lastBlockNumber).Pairwise (· < ·) ∧
    (∀ j, j ∈ blockRange p.currentBlock lastBlockNumber ↔
      p.currentBlock ≤ j ∧ j ≤ lastBlockNumber) := by
  refine ⟨⟨_, ?_, rfl, ?_, ?_⟩, blockRangeFrom_increasing _ _, mem_blockRange _ _⟩
  · have hr := scanRange_eq_spec node lastBlockNumber hhi fuel p.currentBlock p
      [Event.fetchHead] hlo hfuel
    simp [scanCycle, hhead, hstart, hr]
  · intro j txs h1 h2 hg
    have hm : Event.processBlock j ∈
        specBlockEvents node (blockRange p.currentBlock lastBlockNumber) :=
      (processBlock_mem_specBlockEvents node _ j).2 ⟨(mem_blockRange _ _ j).2 ⟨h1, h2⟩, txs, hg⟩
    simp [hm]
  · intro j e hg hm
    have hm2 : Event.processBlock j ∈
        specBlockEvents node (blockRange p.currentBlock lastBlockNumber) := by
      simpa using hm
    obtain ⟨_, txs, hok⟩ := (processBlock_mem_specBlockEvents node _ j).1 hm2
    rw [hg] at hok
    cases hok

/-- Witness of C8: cursor 5, head 8, block 6 failing: blocks 5, 7 and 8 are
processed, in this order, and the cycle ends with the sleep. -/
theorem C8_cycle_processes_fetched_blocks_in_order_witness :
    (∃ trace, scanCycle nodeFailingAt6 10 parserAt5 (.result "0x8") =
        some (specCycleState nodeFailingAt6 parserAt5 (blockRange parserAt5.currentBlock 8),
          trace) ∧
      trace = [Event.fetchHead] ++
        specBlockEvents nodeFailingAt6 (blockRange parserAt5.currentBlock 8) ++ [Event.sleep]) ∧
    blockRange parserAt5.currentBlock 8 = [5, 6, 7, 8] ∧
    [Event.fetchHead] ++ specBlockEvents nodeFailingAt6 (blockRange parserAt5.currentBlock 8)
        ++ [Event.sleep] =
      [.fetchHead, .fetchBlock 5, .processBlock 5, .fetchBlock 6, .fetchBlock 7,
        .processBlock 7, .fetchBlock 8, .processBlock 8, .sleep] :=
  have h := C8_cycle_processes_fetched_blocks_in_order nodeFailingAt6 parserAt5 (.result "0x8")
    8 10 (by decide) (by decide) (by decide) (by decide) (by decide)
  ⟨h.1.elim (fun trace ht => ⟨trace, ht.1, ht.2.1⟩), by decide, by decide⟩

/-- C9: two rounds of the scan loop whose head fetches fail, and two rounds
started with the zero cursor, each perform two head fetches in a row with no
sleep between them; in those rounds no block is fetched or processed. -/
theorem C9_skipped_cycles_do_not_sleep :
    (scanBlocks nodeFailingAt6 10 [.transportFailed, .transportFailed] parserAt5).map (·.2) =
      some [Event.fetchHead, Event.fetchHead] ∧
    (scanBlocks nodeFailingAt6 10 [.result "0x8", .result "0x8"] NewParser).map (·.2) =
      some [Event.fetchHead, Event.fetchHead] ∧
    sleepsBetweenHeadFetches [Event.fetchHead, Event.fetchHead] false = false ∧
    (scanBlocks nodeFailingAt6 10 [.result "0x8", .result "0x8"] parserAt5).map
        (fun r => sleepsBetweenHeadFetches r.2 false) = some true ∧
    (∀ (node : Int → BlockReply) (fuel : Nat) (p : Parser),
      scanCycle node fuel p .transportFailed = some (p, [Event.fetchHead])) ∧
    (∀ (node : Int → BlockReply) (fuel : Nat) (reply : HeadReply),
      scanCycle node fuel NewParser reply = some (NewParser, [Event.fetchHead])) := by
  refine ⟨by decide, by decide, by decide, by decide, fun _ _ _ => rfl, ?_⟩
  intro node fuel reply
  unfold scanCycle
  cases h : fetchCurrentBlock reply with
  | mk v e =>
    cases e with
    | none => simp [NewParser]
    | some e => rfl

end EthParser
